import Mathlib

/-!
Verification of the go-serum-analyzer repository: a shallow embedding of the
analyzer's core functions (error-code validation, the docstring-claim checker,
fact export, the error-type analyzer, the backward taint engine, and the
SCC result unification), together with theorems settling the spec's claims.

Host services of the analysis framework (AST construction, `types.Implements`,
constant evaluation, fact storage) are modelled as oracles/inputs; the
analyzer's own control flow is translated function by function from the source.
-/

namespace SerumAnalyzer

/-! ## Error-code validation (`isErrorCodeValid`, src/analysis/analyse.go lines 73-94) -/

/-- Character class `[a-z]`. -/
def isLowerAlpha (c : Char) : Bool := 'a' ≤ c && c ≤ 'z'

/-- Character class `[A-Z]`. -/
def isUpperAlpha (c : Char) : Bool := 'A' ≤ c && c ≤ 'Z'

/-- Character class `[0-9]`, as the source writes it (`c >= '0' && c <= '9'`). -/
def isDigitChar (c : Char) : Bool := '0' ≤ c && c ≤ '9'

/-- The loop body's character class `[a-zA-Z0-9\-]` from `isErrorCodeValid`. -/
def isValidCodeChar (c : Char) : Bool :=
  c = '-' || isLowerAlpha c || isUpperAlpha c || isDigitChar c

/-- `isErrorCodeValid` from src/analysis/analyse.go lines 73-94, on the
character sequence of the code string: reject the empty string, a leading
dash or digit, a trailing dash, and any character outside `[a-zA-Z0-9\-]`.
(The Go byte-level first/last checks agree with the character-level ones:
a non-ASCII first byte belongs to a character the final loop rejects.) -/
def isErrorCodeValid (code : List Char) : Bool :=
  if code.length = 0 then false
  else if code.headI = '-' || isDigitChar code.headI then false
  else if code.getLastI = '-' then false
  else code.all isValidCodeChar

/-- Character class `[A-Za-z]` of the specified regular expressions. -/
def isAlphaChar (c : Char) : Bool := isLowerAlpha c || isUpperAlpha c

/-- Character class `[A-Za-z0-9]` of the specified regular expressions. -/
def isAlnumChar (c : Char) : Bool := isAlphaChar c || isDigitChar c

/-- Character class `[A-Za-z0-9-]` of the specified regular expressions. -/
def isMiddleChar (c : Char) : Bool := isAlphaChar c || isDigitChar c || c = '-'

/-- The spec's error-code syntax: `^[A-Za-z]$` or
`^[A-Za-z][A-Za-z0-9-]*[A-Za-z0-9]$`, stated directly on the character list. -/
def matchesErrorCodeRegex (code : List Char) : Bool :=
  match code with
  | [] => false
  | c :: rest =>
    if rest.isEmpty then isAlphaChar c
    else isAlphaChar c && rest.dropLast.all isMiddleChar && isAlnumChar rest.getLastI

/-! ## Error-type matching (`errorTypesSubset`, src/analysis/analyse.go lines 786-791) -/

/-- The shape of a Go type as far as the matching logic inspects it: a named
type or a pointer type. -/
inductive GoType where
  | named (n : String)
  | pointer (elem : GoType)
deriving DecidableEq, Repr

/-- The host's `types.Identical`, which on these shapes is structural identity. -/
def typesIdentical (t1 t2 : GoType) : Bool := t1 = t2

/-- `errorTypesSubset` from src/analysis/analyse.go lines 786-791: `type1` is
accepted against `type2` when they are identical, or when `type2` is a pointer
type whose element is identical to `type1`. -/
def errorTypesSubset (type1 type2 : GoType) : Bool :=
  typesIdentical type1 type2 ||
    (match type2 with
     | .pointer elem2 => typesIdentical type1 elem2
     | _ => false)

/-- The relation as the claim words it: identical, or one type is the pointer
to the other's element type (in either direction). -/
def claimedSameErrorType (t1 t2 : GoType) : Bool :=
  typesIdentical t1 t2 ||
    (match t2 with
     | .pointer elem2 => typesIdentical t1 elem2
     | _ => false) ||
    (match t1 with
     | .pointer elem1 => typesIdentical t2 elem1
     | _ => false)

/-! ## Diagnostics -/

/-- The diagnostics the modelled functions can emit, with the payload each
report formats. Positions are node identifiers. -/
inductive Diag where
  | errorNotLastArg (pos : Nat)
  | oddDocstring (fn : String) (msg : String)
  | exportedNoCodes (fn : String)
  | nonLastDestructure (pos : Nat)
  | notLocalVar (pos : Nat)
  | notErrorUnary (pos : Nat)
  | onlySingleField (pos : Nat) (newField oldField : String)
  | shouldReturnConstOrField (pos : Nat)
  | invalidConstant (pos : Nat) (msg : String)
  | promotedField (fname : String)
deriving DecidableEq, Repr

/-! ## Pre-pass (`findErrorReturningFunctions`, src/analysis/analyse.go lines 263-297) -/

/-- One entry of a function's result list: its position (a node id) and
whether the host's `types.Implements(typeOf(result.Type), tError)` holds. -/
structure RResult where
  pos : Nat
  implErr : Bool
deriving DecidableEq, Repr

/-- The per-function body of the `lookup.forEach` loop in
`findErrorReturningFunctions` (src/analysis/analyse.go lines 276-294):
given the function's result list (`none` when `funcDecl.Type.Results` is nil),
return the diagnostics emitted and whether the function joins
`funcsToAnalyse`. Indexing an empty non-nil result list is a runtime panic. -/
def checkFuncReturns (results : Option (List RResult)) :
    Except String (List Diag × Bool) :=
  match results with
  | none => .ok ([], false)
  | some rs =>
    match rs.getLast? with
    | none => .error "index out of range"
    | some lastResult =>
      if !lastResult.implErr then
        .ok ((rs.filter (·.implErr)).map (fun r => Diag.errorNotLastArg r.pos), false)
      else
        .ok ([], true)

/-! ## Claim collection and fact export
(`findClaimedErrorCodes` src/unnamed/part_000 lines 193-223,
`exportFunctionErrorCodes` src/unnamed/part_000 lines 232-244) -/

/-- Modelled from the spec: the missing code-set algebra (component A, "Set
type for error codes with union, difference, from-slice, to-sorted-slice").
A code set is a duplicate-free list; `codeSetAdd` is set insertion. -/
def codeSetAdd (s : List String) (c : String) : List String :=
  if c ∈ s then s else s ++ [c]

/-- Lexicographic order on character sequences, by code point. -/
def charListLe : List Char → List Char → Bool
  | [], _ => true
  | _ :: _, [] => false
  | a :: as, b :: bs =>
    if a.toNat < b.toNat then true
    else if b.toNat < a.toNat then false
    else charListLe as bs

/-- Lexicographic order on strings, by code point. -/
def strLe (s1 s2 : String) : Bool := charListLe s1.data s2.data

/-- Sorted insertion into a lexicographically sorted list. -/
def insertSorted (s : String) (l : List String) : List String :=
  match l with
  | [] => [s]
  | x :: xs => if strLe s x then s :: x :: xs else x :: insertSorted s xs

/-- Modelled from the spec: `codeSet.slice()` of the missing code-set algebra
— the set's elements as a lexicographically sorted list (insertion sort). -/
def codeSlice (codes : List String) : List String :=
  codes.foldr insertSorted []

/-- A function declaration as the claim checker inspects it. `recv` is the
host type of the single receiver (`none` when the declaration is not a method,
mirroring `isMethod`); `parseResult` is the outcome of `findErrorDocs` on its
doc comment, with the code set a duplicate-free list of strings (the
docstring parser itself is not part of the sources; its outcome is taken as
input). `hasDef` models whether `pass.TypesInfo.Defs[funcDecl.Name]` is a
`*types.Func`. -/
structure CFuncDecl where
  name : String
  exported : Bool
  recv : Option GoType
  parseResult : Except String (List String)
  hasDef : Bool

/-- The body of the loop in `findClaimedErrorCodes` (src/unnamed/part_000
lines 195-220) for one function: the diagnostics it reports and the
`funcCodes` entries it adds. `implementsWithCause` is the host's
`types.Implements(receiverType, tReeErrorWithCause)`. -/
def claimStep (implementsWithCause : GoType → Bool) (fd : CFuncDecl) :
    List Diag × List (CFuncDecl × List String) :=
  match fd.parseResult with
  | .error e => ([.oddDocstring fd.name e], [])
  | .ok codes =>
    if codes.length = 0 then
      match fd.recv with
      | some receiverType =>
        if implementsWithCause receiverType then ([], [])
        else if fd.exported then ([.exportedNoCodes fd.name], []) else ([], [])
      | none =>
        if fd.exported then ([.exportedNoCodes fd.name], []) else ([], [])
    else
      ([], [(fd, codes)])

/-- `findClaimedErrorCodes` (src/unnamed/part_000 lines 193-223): run
`claimStep` over all functions to analyse, collecting diagnostics and the
`funcCodes` map (as an association list in iteration order). -/
def findClaimedErrorCodes (implementsWithCause : GoType → Bool)
    (funcsToAnalyse : List CFuncDecl) :
    List Diag × List (CFuncDecl × List String) :=
  funcsToAnalyse.foldr
    (fun fd acc =>
      let step := claimStep implementsWithCause fd
      (step.1 ++ acc.1, step.2 ++ acc.2))
    ([], [])

/-- `exportFunctionErrorCodes` (src/unnamed/part_000 lines 232-244): for every
function in `funcCodes` whose definition resolves, export an `ErrorCodes`
fact holding the slice of its claimed code set. -/
def exportFunctionErrorCodes (codes : List (CFuncDecl × List String)) :
    List (String × List String) :=
  codes.foldr
    (fun entry acc =>
      if entry.1.hasDef then (entry.1.name, codeSlice entry.2) :: acc else acc)
    []

/-- The claim-then-export pipeline of `runVerify` (src/unnamed/part_000
lines 112 and 134): collect claimed codes, then export the facts. -/
def claimAndExport (implementsWithCause : GoType → Bool)
    (funcsToAnalyse : List CFuncDecl) :
    List Diag × List (String × List String) :=
  let collected := findClaimedErrorCodes implementsWithCause funcsToAnalyse
  (collected.1, exportFunctionErrorCodes collected.2)

/-! ## Error-type analysis
(`getErrorCodeFromConstant` src/analysis/analyse.go lines 570-589,
`analyseCodeMethod` lines 646-711,
`getFieldPositionUsingMethodReceiver` lines 713-755) -/

/-- A compile-time constant as the host's `constant.Value` presents it to
`getErrorCodeFromConstant`: a string constant (already unquoted) or a
constant of another kind. -/
inductive GoConst where
  | strConst (s : String)
  | nonStringConst
deriving DecidableEq, Repr

/-- `getErrorCodeFromConstant` (src/analysis/analyse.go lines 570-589):
reject non-string constants and badly formatted codes. (The unquote step of
the source cannot fail on a string constant and is the identity here.) -/
def getErrorCodeFromConstant (value : GoConst) : Except String String :=
  match value with
  | .nonStringConst => .error "error code has to be of type string"
  | .strConst s =>
    if !isErrorCodeValid s.data then
      .error "error code has invalid format: should match [a-zA-Z][a-zA-Z0-9\\-]*[a-zA-Z0-9]"
    else
      .ok s

/-- One field entry of a struct declaration: the declared names
(the empty list models an anonymous, i.e. promoted, field). -/
structure FieldGroup where
  names : List String
deriving DecidableEq, Repr

/-- The declaration a receiver's type identifier resolves to: a struct type
with its field list, or some other type expression. -/
inductive TypeSpecType where
  | structType (fields : List FieldGroup)
  | otherType
deriving DecidableEq, Repr

/-- What stands under the `*` of a pointer receiver type. -/
inductive StarTarget where
  | typeDecl (spec : TypeSpecType)
  | badIdent
  | badDecl
deriving DecidableEq, Repr

/-- The AST type of the receiver field of a `Code()` method declaration:
a `*ast.StarExpr` (pointer receiver) or anything else (value receiver). -/
inductive ReceiverAst where
  | star (target : StarTarget)
  | nonStar
deriving DecidableEq, Repr

/-- The field-counting loop of `getFieldPositionUsingMethodReceiver`
(src/analysis/analyse.go lines 739-754): anonymous fields advance the
position without matching; named fields match by name. -/
def walkFieldGroups (fgs : List FieldGroup) (fieldName : String) (i : Nat) : Int :=
  match fgs with
  | [] => -1
  | fg :: rest =>
    match fg.names with
    | [] => walkFieldGroups rest fieldName (i + 1)
    | names =>
      match names.indexOf? fieldName with
      | some j => Int.ofNat (i + j)
      | none => walkFieldGroups rest fieldName (i + names.length)

/-- `getFieldPositionUsingMethodReceiver` (src/analysis/analyse.go
lines 713-755). The source panics (`.error` here) when the receiver type is
not a `*ast.StarExpr`, or when the star's operand does not resolve to a type
declaration; a non-struct declaration yields `-1`. -/
def getFieldPositionUsingMethodReceiver (recvAst : ReceiverAst)
    (fieldName : String) : Except String Int :=
  match recvAst with
  | .nonStar => .error "not a *ast.StarExpr"
  | .star .badIdent => .error "can this happen?"
  | .star .badDecl => .error "can this happen?"
  | .star (.typeDecl .otherType) => .ok (-1)
  | .star (.typeDecl (.structType fgs)) => .ok (walkFieldGroups fgs fieldName 0)

/-- `ErrorCodeField` (src/analysis/analyse.go lines 55-58). -/
structure ErrorCodeField where
  name : String
  position : Int
deriving DecidableEq, Repr

/-- `ErrorType` (src/analysis/analyse.go lines 48-51): the fact recorded for
an error type. -/
structure ErrorType where
  codes : List String
  field : Option ErrorCodeField
deriving DecidableEq, Repr

/-- The single result expression of a `return` statement inside a `Code()`
method, as `analyseCodeMethod` classifies it: a constant value, a selector
`receiverIdent.fname` on the method's receiver identifier, or anything
else. -/
inductive CRetExpr where
  | constVal (v : GoConst)
  | recvField (fname : String)
  | otherRet
deriving DecidableEq, Repr

/-- A `return` statement of the walked `Code()` body: its position (node id)
and its single result expression. -/
structure CReturn where
  pos : Nat
  expr : CRetExpr
deriving DecidableEq, Repr

/-- The `ast.Inspect` body of `analyseCodeMethod` (src/analysis/analyse.go
lines 649-691) for one return statement, acting on the accumulated
(constants, fieldName, diagnostics) state. An empty `fieldName` is the
source's sentinel for "no field recorded yet". -/
def codeMethodStep (receiver : Option ReceiverAst)
    (acc : List String × String × List Diag) (ret : CReturn) :
    List String × String × List Diag :=
  match ret.expr with
  | .constVal v =>
    match getErrorCodeFromConstant v with
    | .ok value => (codeSetAdd acc.1 value, acc.2.1, acc.2.2)
    | .error m => (acc.1, acc.2.1, acc.2.2 ++ [.invalidConstant ret.pos m])
  | .recvField sel =>
    match receiver with
    | some _ =>
      if acc.2.1 = "" then (acc.1, sel, acc.2.2)
      else if acc.2.1 ≠ sel then
        (acc.1, acc.2.1, acc.2.2 ++ [.onlySingleField ret.pos sel acc.2.1])
      else acc
    | none => (acc.1, acc.2.1, acc.2.2 ++ [.shouldReturnConstOrField ret.pos])
  | .otherRet => (acc.1, acc.2.1, acc.2.2 ++ [.shouldReturnConstOrField ret.pos])

/-- `analyseCodeMethod` (src/analysis/analyse.go lines 646-711): walk the
return statements of the `Code()` method, then resolve the recorded field
name to a position (which panics, `.error`, on a value receiver) and build
the `ErrorType` fact, or `none` when nothing legible was found. -/
def analyseCodeMethod (receiver : Option ReceiverAst)
    (returns : List CReturn) : Except String (List Diag × Option ErrorType) :=
  let state := returns.foldl (codeMethodStep receiver) ([], "", [])
  match state with
  | (constants, fieldName, diags) =>
    let fieldStep : Except String (Option ErrorCodeField × List Diag) :=
      if fieldName ≠ "" then
        match receiver with
        | some recvAst =>
          match getFieldPositionUsingMethodReceiver recvAst fieldName with
          | .error m => .error m
          | .ok p =>
            if p ≥ 0 then .ok (some ⟨fieldName, p⟩, [])
            else .ok (none, [.promotedField fieldName])
        | none => .ok (none, [])
      else .ok (none, [])
    match fieldStep with
    | .error m => .error m
    | .ok (field, extraDiags) =>
      if constants.length = 0 && field = none then .ok (diags ++ extraDiags, none)
      else .ok (diags ++ extraDiags, some ⟨codeSlice constants, field⟩)

/-! ## SCC result unification
(`unifyAnalysisResultForComponent`, src/unnamed/part_000 lines 443-462) -/

/-- Modelled from the spec: the missing `funcAnalysisResult` type — spec §3,
"**AnalysisResult** (per function, internal) — the pair `(affectors, codes)`".
Affectors are identified by their expression node ids. -/
structure FuncAnalysisResult where
  affectors : Finset Nat
  codes : Finset String
deriving DecidableEq

/-- The zero value `funcAnalysisResult{}` of the source. -/
def emptyAnalysisResult : FuncAnalysisResult := ⟨∅, ∅⟩

/-- Modelled from the spec: the missing `funcAnalysisResult.combineInplace` —
spec §4.F step 3, "Unify their intermediate `AnalysisResult`s (union of
affectors and codes)". -/
def combineResults (r1 r2 : FuncAnalysisResult) : FuncAnalysisResult :=
  ⟨r1.affectors ∪ r2.affectors, r1.codes ∪ r2.codes⟩

/-- `unifyAnalysisResultForComponent` (src/unnamed/part_000 lines 443-462):
combine the current analysis results of every member of the component into
one unified result, assign it to every member, and return it. Functions are
identified by ids; `analysisResults` is the `lookup.analysisResults` map
(total, with the zero value for absent entries, as the source's `combine`
"can handle nil values"). -/
def unifyAnalysisResultForComponent (analysisResults : Nat → FuncAnalysisResult)
    (component : List Nat) : (Nat → FuncAnalysisResult) × FuncAnalysisResult :=
  let result :=
    component.foldl (fun acc f => combineResults acc (analysisResults f))
      emptyAnalysisResult
  (fun f => if f ∈ component then result else analysisResults f, result)

/-! ## Backward taint engine
(`findAffectorsInFunc`, src/unnamed/part_000 lines 309-386) -/

/-- An expression as the taint engine dispatches on it. Node ids identify
expressions; `identE` carries the identifier's object id, whether `Obj` is
non-nil, and whether the object's position lies inside the function
(body or named-results list). `unaryE` carries whether the operator is `&`
and whether the host says the expression's type implements `error`. -/
inductive GExpr where
  | callE (cid : Nat)
  | identE (id : Nat) (hasObj : Bool) (isLocal : Bool)
  | unaryE (pos : Nat) (isAnd : Bool) (implErr : Bool)
  | compositeLitE (cid : Nat)
  | basicLitE (cid : Nat)
  | otherE (oid : Nat)
deriving DecidableEq, Repr

/-- One clause of an assignment's left-hand side: an identifier (with its
object id) or some other expression kind. -/
inductive LhsItem where
  | lhsIdent (id : Nat)
  | lhsSelector
  | lhsOther
deriving DecidableEq, Repr

/-- An `*ast.AssignStmt` of the traversed function, in traversal order. -/
structure Assign where
  lhs : List LhsItem
  rhs : List GExpr
deriving DecidableEq, Repr

/-- What one step of the assignment scan of the `ident` case decides to do
(src/unnamed/part_000 lines 344-364): emit the non-last-destructuring
diagnostic and stop scanning this assignment, add the destructured call as
an affector, recurse into the positionally matched right-hand side, or hit
one of the source's panics. -/
inductive ScanAction where
  | emitNonLastDiag (atId : Nat)
  | addCallAffector (e : GExpr)
  | recurseInto (e : GExpr)
  | panicAct (msg : String)
deriving DecidableEq, Repr

/-- The `for i, clause := range assignment.Lhs` loop of the `ident` case
(src/unnamed/part_000 lines 344-368), as the list of actions it takes for
the traced object `objId`. A non-last match in destructuring mode ends the
scan of this assignment (the source's `return false`). -/
def scanClauses (a : Assign) (items : List LhsItem) (i : Nat) (objId : Nat) :
    List ScanAction :=
  match items with
  | [] => []
  | .lhsIdent cid :: rest =>
    if cid = objId then
      if a.rhs.length < a.lhs.length then
        if i ≠ a.lhs.length - 1 then [.emitNonLastDiag cid]
        else
          match a.rhs.head? with
          | some (.callE c) => .addCallAffector (.callE c) :: scanClauses a rest (i + 1) objId
          | some _ => [.panicAct "what?"]
          | none => [.panicAct "index out of range"]
      else
        match a.rhs[i]? with
        | some e => .recurseInto e :: scanClauses a rest (i + 1) objId
        | none => [.panicAct "index out of range"]
    else scanClauses a rest (i + 1) objId
  | _ :: rest => scanClauses a rest (i + 1) objId

/-- The scan of one assignment for the traced object `objId`. -/
def scanAssign (a : Assign) (objId : Nat) : List ScanAction :=
  scanClauses a a.lhs 0 objId

/-- Whether a left-hand-side clause is an identifier with the traced object
(the source's `clauset.Obj == exprt.Obj`). -/
def matchesObj (item : LhsItem) (objId : Nat) : Bool :=
  match item with
  | .lhsIdent cid => cid = objId
  | _ => false

/-- The `ast.Inspect` walk of the `ident` case over all assignments of the
function, in order. -/
def scanAssigns (body : List Assign) (objId : Nat) : List ScanAction :=
  (body.map (fun a => scanAssign a objId)).flatten

/-- The taint engine's result: affectors, diagnostics and the visited set
after the call, or a propagated panic. -/
abbrev AffResult := Except String (List GExpr × List Diag × Finset Nat)

/-- Interpret the scan's actions in order, threading the visited set; a
`recurseInto` action calls back into the engine via `step`
(the source's recursive `findAffectorsInFunc(pass, assignment.Rhs[i],
within, visited)` at src/unnamed/part_000 line 362). -/
def runActs (step : GExpr → Finset Nat → AffResult) :
    List ScanAction → Finset Nat → AffResult
  | [], v => .ok ([], [], v)
  | .emitNonLastDiag cid :: rest, v =>
    match runActs step rest v with
    | .error m => .error m
    | .ok (affs, ds, v') => .ok (affs, .nonLastDestructure cid :: ds, v')
  | .addCallAffector e :: rest, v =>
    match runActs step rest v with
    | .error m => .error m
    | .ok (affs, ds, v') => .ok (e :: affs, ds, v')
  | .panicAct m :: _, _ => .error m
  | .recurseInto e :: rest, v =>
    match step e v with
    | .error m => .error m
    | .ok (affs, ds, v') =>
      match runActs step rest v' with
      | .error m => .error m
      | .ok (affs2, ds2, v'') => .ok (affs ++ affs2, ds ++ ds2, v'')

/-- `findAffectorsInFunc` (src/unnamed/part_000 lines 309-386) with an
explicit fuel for the identifier recursion: a call expression, an `&`
expression of error type, a composite literal and a basic literal are
affectors; an already-visited identifier yields nothing; a fresh identifier
is marked visited, checked for being a local variable, and its assignments
are scanned and followed. The fuel only ticks at fresh identifier visits;
`findAffectorsInFuncTerminates` below shows the canonical fuel of
`findAffectorsInFunc` is never exhausted. -/
def findAffFuel (body : List Assign) : Nat → GExpr → Finset Nat → AffResult
  | fuel, e, v =>
    match e with
    | .callE c => .ok ([.callE c], [], v)
    | .identE id hasObj isLocal =>
      if id ∈ v then .ok ([], [], v)
      else
        match fuel with
        | 0 => .error "out of fuel"
        | fuel' + 1 =>
          let d0 : List Diag := if hasObj && !isLocal then [.notLocalVar id] else []
          match runActs (findAffFuel body fuel') (scanAssigns body id) (insert id v) with
          | .error m => .error m
          | .ok (affs, ds, v') => .ok (affs, d0 ++ ds, v')
    | .unaryE pos isAnd implErr =>
      if isAnd && implErr then .ok ([.unaryE pos isAnd implErr], [], v)
      else .ok ([], [.notErrorUnary pos], v)
    | .compositeLitE c => .ok ([.compositeLitE c], [], v)
    | .basicLitE c => .ok ([.basicLitE c], [], v)
    | .otherE _ => .ok ([], [], v)

/-- The identifier object ids an expression mentions. -/
def exprIdents : GExpr → Finset Nat
  | .identE id _ _ => {id}
  | _ => ∅

/-- The identifier object ids a left-hand-side clause mentions. -/
def lhsItemIdents : LhsItem → Finset Nat
  | .lhsIdent id => {id}
  | _ => ∅

/-- All identifier object ids an assignment mentions. -/
def assignIdents (a : Assign) : Finset Nat :=
  a.lhs.foldr (fun it s => lhsItemIdents it ∪ s) ∅ ∪
    a.rhs.foldr (fun e s => exprIdents e ∪ s) ∅

/-- All identifier object ids the function body mentions. -/
def bodyIdents (body : List Assign) : Finset Nat :=
  body.foldr (fun a s => assignIdents a ∪ s) ∅

/-- How many identifiers relevant to the traversal are still unvisited: the
bound on the number of fresh identifier visits the engine can make. -/
def affMeasure (body : List Assign) (e : GExpr) (v : Finset Nat) : Nat :=
  ((bodyIdents body ∪ exprIdents e) \ v).card

/-- `findAffectorsInFunc` (src/unnamed/part_000 lines 309-386): the engine
run with its canonical fuel. -/
def findAffectorsInFunc (body : List Assign) (e : GExpr) (v : Finset Nat) :
    AffResult :=
  findAffFuel body (affMeasure body e v + 1) e v

/-! ## Theorems -/

theorem digit_not_alpha (c : Char) (h : isDigitChar c = true) : isAlphaChar c = false := by
  simp only [isDigitChar, Bool.and_eq_true, decide_eq_true_eq] at h
  simp only [isAlphaChar, isLowerAlpha, isUpperAlpha, Bool.or_eq_false_iff,
    Bool.and_eq_false_iff, decide_eq_false_iff_not]
  exact ⟨Or.inl fun hc => absurd (le_trans hc h.2) (by decide),
    Or.inl fun hc => absurd (le_trans hc h.2) (by decide)⟩

theorem valid_char_of_nondash_nondigit (c : Char) (hd : ¬c = '-')
    (hg : isDigitChar c = false) : isValidCodeChar c = isAlphaChar c := by
  simp [isValidCodeChar, isAlphaChar, hd, hg, Bool.or_assoc]

theorem valid_char_of_nondash (c : Char) (hd : ¬c = '-') :
    isValidCodeChar c = isAlnumChar c := by
  simp [isValidCodeChar, isAlnumChar, isAlphaChar, hd, Bool.or_assoc]

theorem middle_char_eq_valid (c : Char) : isMiddleChar c = isValidCodeChar c := by
  simp only [isMiddleChar, isValidCodeChar, isAlphaChar]
  cases h : decide (c = '-') <;> simp [Bool.or_assoc, Bool.or_comm, Bool.or_left_comm]

theorem all_middle_eq_valid (l : List Char) :
    l.all isMiddleChar = l.all isValidCodeChar := by
  induction l with
  | nil => rfl
  | cons c t ih => simp [List.all_cons, ih, middle_char_eq_valid]

theorem isErrorCodeValid_cons (c0 : Char) (rest : List Char) :
    isErrorCodeValid (c0 :: rest) =
      (!(decide (c0 = '-') || isDigitChar c0) && !(decide ((c0 :: rest).getLastI = '-'))
        && (c0 :: rest).all isValidCodeChar) := by
  simp only [isErrorCodeValid, List.length_cons, Nat.succ_ne_zero, if_false, List.headI]
  by_cases h1 : (decide (c0 = '-') || isDigitChar c0) = true
  · simp [h1]
  · simp only [Bool.not_eq_true] at h1
    simp only [h1, Bool.false_eq_true, if_false, Bool.not_false, Bool.true_and]
    by_cases h2 : (c0 :: rest).getLastI = '-'
    · simp [h2]
    · simp [h2]

/-- C3: the error-code validator `isErrorCodeValid` accepts exactly the
strings matching `^[A-Za-z]$` or `^[A-Za-z][A-Za-z0-9-]*[A-Za-z0-9]$`; in
particular it accepts "a", "ValidError" and "some-2-error" and rejects "",
"-", "-x", "x-", "0x", "x y" and "x$". -/
theorem error_code_validator_matches_regex :
    (∀ code : List Char, isErrorCodeValid code = matchesErrorCodeRegex code) ∧
    isErrorCodeValid "a".data = true ∧
    isErrorCodeValid "ValidError".data = true ∧
    isErrorCodeValid "some-2-error".data = true ∧
    isErrorCodeValid "".data = false ∧
    isErrorCodeValid "-".data = false ∧
    isErrorCodeValid "-x".data = false ∧
    isErrorCodeValid "x-".data = false ∧
    isErrorCodeValid "0x".data = false ∧
    isErrorCodeValid "x y".data = false ∧
    isErrorCodeValid "x$".data = false := by
  refine ⟨?_, by decide, by decide, by decide, by decide, by decide, by decide,
    by decide, by decide, by decide, by decide⟩
  intro code
  cases code with
  | nil => rfl
  | cons c0 rest =>
    rw [isErrorCodeValid_cons]
    rcases List.eq_nil_or_concat rest with hr | ⟨mid, lastc, hr⟩
    · subst hr
      simp only [matchesErrorCodeRegex, List.isEmpty_nil, if_true, List.getLastI,
        List.all_cons, List.all_nil, Bool.and_true]
      by_cases hdash : c0 = '-'
      · subst hdash; decide
      · by_cases hdig : isDigitChar c0 = true
        · simp [hdig, digit_not_alpha c0 hdig]
        · simp only [Bool.not_eq_true] at hdig
          simp [hdash, hdig, valid_char_of_nondash_nondigit c0 hdash hdig]
    · rw [List.concat_eq_append] at hr
      subst hr
      have hlast : (c0 :: (mid ++ [lastc])).getLastI = lastc := by
        rw [List.getLastI_eq_getLast?, ← List.cons_append, List.getLast?_concat]
      have hlast2 : (mid ++ [lastc]).getLastI = lastc := by
        rw [List.getLastI_eq_getLast?, List.getLast?_concat]
      have hne : (mid ++ [lastc]).isEmpty = false := by simp
      simp only [matchesErrorCodeRegex, hne, Bool.false_eq_true, if_false, hlast, hlast2,
        List.dropLast_concat, List.all_cons, List.all_append, List.all_nil, Bool.and_true]
      by_cases hdash : c0 = '-'
      · subst hdash
        simp [isAlphaChar, isLowerAlpha, isUpperAlpha]
      · by_cases hdig : isDigitChar c0 = true
        · simp [hdig, digit_not_alpha c0 hdig]
        · simp only [Bool.not_eq_true] at hdig
          by_cases hdl : lastc = '-'
          · subst hdl
            simp [isAlnumChar, isAlphaChar, isLowerAlpha, isUpperAlpha, isDigitChar]
          · simp [hdash, hdig, hdl, all_middle_eq_valid,
              valid_char_of_nondash_nondigit c0 hdash hdig,
              valid_char_of_nondash lastc hdl, Bool.and_assoc]

/-- C6 counterexample: the claim's relation also matches a pointer receiver
against the bare value type, but `errorTypesSubset` rejects exactly that
direction: `errorTypesSubset (*E) E = false` although the claimed relation
holds there. -/
theorem pointer_receiver_value_type_counterexample :
    claimedSameErrorType (.pointer (.named "E")) (.named "E") = true ∧
    errorTypesSubset (.pointer (.named "E")) (.named "E") = false := by
  constructor <;> rfl

/-- C6 amended: `errorTypesSubset t1 t2` holds exactly when the types are
identical or `t2` (the error value's type) is the pointer type to `t1` (the
receiver type); a receiver of type `T` matches a value of type `*T`, but a
receiver of type `*T` never matches a value of type `T`. -/
theorem errorTypesSubset_characterization :
    (∀ t1 t2 : GoType,
      errorTypesSubset t1 t2 = true ↔ (t1 = t2 ∨ ∃ e, t2 = GoType.pointer e ∧ t1 = e)) ∧
    (∀ t : GoType, errorTypesSubset t (.pointer t) = true) ∧
    (∀ t : GoType, errorTypesSubset (.pointer t) t = false) := by
  refine ⟨fun t1 t2 => ?_, fun t => ?_, fun t => ?_⟩
  · cases t2 with
    | named n => simp [errorTypesSubset, typesIdentical]
    | pointer e2 => simp [errorTypesSubset, typesIdentical]
  · simp [errorTypesSubset, typesIdentical]
  · cases t with
    | named n => simp [errorTypesSubset, typesIdentical]
    | pointer e =>
      simp only [errorTypesSubset, typesIdentical, Bool.or_eq_false_iff,
        decide_eq_false_iff_not]
      constructor
      · intro h
        have h' := congrArg (fun x => sizeOf x) h
        simp only [GoType.pointer.sizeOf_spec] at h'
        omega
      · intro h
        have h' := congrArg (fun x => sizeOf x) h
        simp only [GoType.pointer.sizeOf_spec] at h'
        omega

/-- C6 witness: the characterization applied at a concrete type. -/
theorem errorTypesSubset_characterization_witness :
    errorTypesSubset (.named "T") (.pointer (.named "T")) = true :=
  (errorTypesSubset_characterization.1 _ _).mpr (Or.inr ⟨.named "T", rfl, rfl⟩)

/-- C9: for a function with a non-empty result list, if the last result's
type does not implement `error`, the pre-pass reports "error should be
returned as the last argument" at every earlier result whose type implements
`error` and excludes the function; if the last result's type implements
`error`, the function is included as a candidate. -/
theorem prepass_error_last_result :
    ∀ (rs : List RResult) (lastR : RResult), rs.getLast? = some lastR →
      (lastR.implErr = false →
        checkFuncReturns (some rs) =
          .ok (((rs.dropLast.filter (fun r => r.implErr)).map
            (fun r => Diag.errorNotLastArg r.pos)), false)) ∧
      (lastR.implErr = true → checkFuncReturns (some rs) = .ok ([], true)) := by
  intro rs lastR hlast
  have hrs : rs.dropLast ++ [lastR] = rs := by
    have hne : rs ≠ [] := by
      intro h
      rw [h] at hlast
      exact Option.noConfusion hlast
    have hgl : rs.getLast hne = lastR := by
      rw [List.getLast?_eq_getLast rs hne] at hlast
      exact Option.some.injEq _ _ ▸ hlast
    rw [← hgl]
    exact List.dropLast_append_getLast hne
  constructor
  · intro himpl
    have hfilter : rs.filter (fun r => r.implErr) =
        rs.dropLast.filter (fun r => r.implErr) := by
      conv_lhs => rw [← hrs]
      rw [List.filter_append]
      simp [List.filter, himpl]
    simp only [checkFuncReturns, hlast, himpl, Bool.not_false, if_true, hfilter]
  · intro himpl
    simp only [checkFuncReturns, hlast, himpl, Bool.not_true, Bool.false_eq_true,
      if_false]

/-- C9 witness: the pre-pass applied to a two-result function whose first
result implements `error` and whose last does not, and to a one-result
function returning an `error`. -/
theorem prepass_error_last_result_witness :
    checkFuncReturns (some [⟨0, true⟩, ⟨1, false⟩]) =
      .ok ([Diag.errorNotLastArg 0], false) ∧
    checkFuncReturns (some [⟨5, true⟩]) = .ok ([], true) := by
  constructor
  · have h := (prepass_error_last_result [⟨0, true⟩, ⟨1, false⟩] ⟨1, false⟩ rfl).1 rfl
    simpa using h
  · exact (prepass_error_last_result [⟨5, true⟩] ⟨5, true⟩ rfl).2 rfl

/-- C4 counterexample: an exported method that is not named `Cause`, with an
empty declared code set, on a receiver type implementing the
coded-error-with-cause capability, receives no diagnostic — the code exempts
every method of such a type, not only `Cause()`. -/
theorem non_cause_method_exempt_counterexample :
    "Frob" ≠ "Cause" ∧
    findClaimedErrorCodes (fun t => t = .named "ErrWithCause")
      [⟨"Frob", true, some (.named "ErrWithCause"), .ok [], true⟩] = ([], []) := by
  constructor
  · decide
  · rfl

/-- C4 amended: for an analyzed function whose parsed declared code set is
empty and whose name is exported, the "function X is exported, but does not
declare any error codes" diagnostic is emitted exactly when the function is
not a method of a receiver type implementing the coded-error-with-cause
capability — the exemption applies to every method of such a type,
regardless of the method's name. -/
theorem exported_no_codes_warning_exemption :
    ∀ (implementsWithCause : GoType → Bool) (fd : CFuncDecl) (codes : List String),
      fd.parseResult = .ok codes → codes.length = 0 → fd.exported = true →
      ((claimStep implementsWithCause fd).1 = [] ↔
        ∃ t, fd.recv = some t ∧ implementsWithCause t = true) ∧
      ((claimStep implementsWithCause fd).1 = [] ∨
        (claimStep implementsWithCause fd).1 = [Diag.exportedNoCodes fd.name]) ∧
      (claimStep implementsWithCause fd).2 = [] := by
  intro impl fd codes hparse hcard hexp
  cases fd with
  | mk name exported recv parseResult hasDef =>
    simp only at hparse hexp
    subst hparse hexp
    cases recv with
    | none => simp [claimStep, hcard]
    | some t =>
      by_cases himpl : impl t = true
      · simp [claimStep, hcard, himpl]
      · simp only [Bool.not_eq_true] at himpl
        simp [claimStep, hcard, himpl]

/-- C4 witness: the amended statement applied to an exported `Cause()` method
of an implementing receiver type: no diagnostic. -/
theorem exported_no_codes_warning_exemption_witness :
    (claimStep (fun _ => true)
      ⟨"Cause", true, some (.named "E"), .ok [], true⟩).1 = [] :=
  ((exported_no_codes_warning_exemption (fun _ => true)
      ⟨"Cause", true, some (.named "E"), .ok [], true⟩ [] rfl rfl rfl).1).mpr
    ⟨.named "E", rfl, rfl⟩

/-- C1 evaluation (code bug): an exported function whose docstring parses
successfully to the empty declared set (the `Errors: none` form) is treated
like a function with no declaration at all: the pass emits the
"exported, but does not declare any error codes" diagnostic and exports no
`ErrorCodes` fact, although the claim (and the repository's own docformat
test data, `want CorrectNoErrors1:"ErrorCodes:"`) require a fact with the
empty code list and no diagnostic. A nonempty declared set, by contrast, is
exported sorted. -/
theorem errors_none_exports_no_fact :
    claimAndExport (fun _ => false)
      [⟨"CorrectNoErrors1", true, none, .ok [], true⟩] =
      ([Diag.exportedNoCodes "CorrectNoErrors1"], []) ∧
    claimAndExport (fun _ => false)
      [⟨"Correct", true, none, .ok ["hello-unreachable", "hello-error"], true⟩] =
      ([], [("Correct", ["hello-error", "hello-unreachable"])]) := by
  constructor
  · rfl
  · rfl

/-- C5 counterexample: a `Code()` method whose two return statements select
the two distinct receiver fields `a` and `b` gets the diagnostic on the
second return, but the resulting `ErrorType` fact still records the first
field's descriptor `{Name: "a", Position: 0}` — not "no field descriptor"
as the claim states. -/
theorem second_field_still_recorded_counterexample :
    analyseCodeMethod
      (some (.star (.typeDecl (.structType [⟨["a"]⟩, ⟨["b"]⟩]))))
      [⟨0, .recvField "a"⟩, ⟨1, .recvField "b"⟩] =
      .ok ([Diag.onlySingleField 1 "b" "a"], some ⟨[], some ⟨"a", 0⟩⟩) := by
  rfl

/-- C5 amended: when the error-type analyzer walks a `Code()` method whose
two return statements select two distinct field names on the receiver, it
emits a diagnostic on the second differing return statement, and the
resulting `ErrorTypeFact` records the descriptor of the FIRST returned field
name (when its position resolves). -/
theorem second_field_diag_first_field_recorded :
    ∀ (recv : ReceiverAst) (a b : String) (p0 p1 : Nat) (pos : Int),
      a ≠ b → a ≠ "" →
      getFieldPositionUsingMethodReceiver recv a = .ok pos → 0 ≤ pos →
      analyseCodeMethod (some recv) [⟨p0, .recvField a⟩, ⟨p1, .recvField b⟩] =
        .ok ([Diag.onlySingleField p1 b a], some ⟨[], some ⟨a, pos⟩⟩) := by
  intro recv a b p0 p1 pos hab ha hpos hge
  have hstep1 : codeMethodStep (some recv) ([], "", []) ⟨p0, .recvField a⟩ =
      ([], a, []) := by
    simp [codeMethodStep]
  have hstep2 : codeMethodStep (some recv) ([], a, []) ⟨p1, .recvField b⟩ =
      ([], a, [Diag.onlySingleField p1 b a]) := by
    simp [codeMethodStep, ha, hab]
  simp only [analyseCodeMethod, List.foldl_cons, List.foldl_nil, hstep1, hstep2]
  simp [ha, hpos, hge, codeSlice]

/-- C5 witness: the amended statement at a concrete receiver struct with
fields `x`, `y`, whose `Code()` method returns `y` in one branch and `x` in
a later one. -/
theorem second_field_diag_first_field_recorded_witness :
    analyseCodeMethod (some (.star (.typeDecl (.structType [⟨["x", "y"]⟩]))))
      [⟨5, .recvField "y"⟩, ⟨7, .recvField "x"⟩] =
      .ok ([Diag.onlySingleField 7 "x" "y"], some ⟨[], some ⟨"y", 1⟩⟩) :=
  second_field_diag_first_field_recorded
    (.star (.typeDecl (.structType [⟨["x", "y"]⟩]))) "y" "x" 5 7 1
    (by decide) (by decide) rfl (by decide)

/-- C10 evaluation (code bug): resolving the field position of a `Code()`
method that returns a receiver field panics on a value (non-pointer)
receiver — `panic("not a *ast.StarExpr")` — aborting the whole pass instead
of surfacing a diagnostic and continuing. -/
theorem value_receiver_code_method_panics :
    analyseCodeMethod (some .nonStar) [⟨0, .recvField "TheCode"⟩] =
      .error "not a *ast.StarExpr" ∧
    getFieldPositionUsingMethodReceiver .nonStar "TheCode" =
      .error "not a *ast.StarExpr" := by
  constructor
  · rfl
  · rfl

theorem mem_foldl_combine_affectors (ar : Nat → FuncAnalysisResult) :
    ∀ (comp : List Nat) (acc : FuncAnalysisResult) (x : Nat),
      (x ∈ (comp.foldl (fun a f => combineResults a (ar f)) acc).affectors ↔
        x ∈ acc.affectors ∨ ∃ m ∈ comp, x ∈ (ar m).affectors) := by
  intro comp
  induction comp with
  | nil => simp
  | cons h t ih =>
    intro acc x
    rw [List.foldl_cons, ih]
    simp only [combineResults, Finset.mem_union, List.mem_cons]
    constructor
    · rintro ((hx | hx) | ⟨m, hm, hx⟩)
      · exact Or.inl hx
      · exact Or.inr ⟨h, Or.inl rfl, hx⟩
      · exact Or.inr ⟨m, Or.inr hm, hx⟩
    · rintro (hx | ⟨m, hm | hm, hx⟩)
      · exact Or.inl (Or.inl hx)
      · exact Or.inl (Or.inr (hm ▸ hx))
      · exact Or.inr ⟨m, hm, hx⟩

theorem mem_foldl_combine_codes (ar : Nat → FuncAnalysisResult) :
    ∀ (comp : List Nat) (acc : FuncAnalysisResult) (c : String),
      (c ∈ (comp.foldl (fun a f => combineResults a (ar f)) acc).codes ↔
        c ∈ acc.codes ∨ ∃ m ∈ comp, c ∈ (ar m).codes) := by
  intro comp
  induction comp with
  | nil => simp
  | cons h t ih =>
    intro acc c
    rw [List.foldl_cons, ih]
    simp only [combineResults, Finset.mem_union, List.mem_cons]
    constructor
    · rintro ((hc | hc) | ⟨m, hm, hc⟩)
      · exact Or.inl hc
      · exact Or.inr ⟨h, Or.inl rfl, hc⟩
      · exact Or.inr ⟨m, Or.inr hm, hc⟩
    · rintro (hc | ⟨m, hm | hm, hc⟩)
      · exact Or.inl (Or.inl hc)
      · exact Or.inl (Or.inr (hm ▸ hc))
      · exact Or.inr ⟨m, hm, hc⟩

/-- C2: after `unifyAnalysisResultForComponent` completes a component, every
member has the identical `AnalysisResult`, and that result is exactly the
union over all component members of their affector sets and their code
sets. -/
theorem scc_unification_identical_union :
    ∀ (ar : Nat → FuncAnalysisResult) (component : List Nat) (f g : Nat),
      f ∈ component → g ∈ component →
      ((unifyAnalysisResultForComponent ar component).1 f =
        (unifyAnalysisResultForComponent ar component).1 g) ∧
      ((unifyAnalysisResultForComponent ar component).1 f =
        (unifyAnalysisResultForComponent ar component).2) ∧
      (∀ x, x ∈ (unifyAnalysisResultForComponent ar component).2.affectors ↔
        ∃ m ∈ component, x ∈ (ar m).affectors) ∧
      (∀ c, c ∈ (unifyAnalysisResultForComponent ar component).2.codes ↔
        ∃ m ∈ component, c ∈ (ar m).codes) := by
  intro ar component f g hf hg
  refine ⟨?_, ?_, ?_, ?_⟩
  · simp only [unifyAnalysisResultForComponent, if_pos hf, if_pos hg]
  · simp only [unifyAnalysisResultForComponent, if_pos hf]
  · intro x
    simp only [unifyAnalysisResultForComponent]
    rw [mem_foldl_combine_affectors]
    simp [emptyAnalysisResult]
  · intro c
    simp only [unifyAnalysisResultForComponent]
    rw [mem_foldl_combine_codes]
    simp [emptyAnalysisResult]

/-- C2 witness: a two-member component, each member holding one affector;
after unification both entries are identical and the unified result holds
the second member's affector. -/
theorem scc_unification_identical_union_witness :
    ((unifyAnalysisResultForComponent
        (fun n => if n = 0 then ⟨{1}, ∅⟩ else if n = 1 then ⟨{2}, ∅⟩ else ⟨∅, ∅⟩)
        [0, 1]).1 0 =
      (unifyAnalysisResultForComponent
        (fun n => if n = 0 then ⟨{1}, ∅⟩ else if n = 1 then ⟨{2}, ∅⟩ else ⟨∅, ∅⟩)
        [0, 1]).1 1) ∧
    2 ∈ (unifyAnalysisResultForComponent
        (fun n => if n = 0 then ⟨{1}, ∅⟩ else if n = 1 then ⟨{2}, ∅⟩ else ⟨∅, ∅⟩)
        [0, 1]).2.affectors := by
  have h := scc_unification_identical_union
    (fun n => if n = 0 then ⟨{1}, ∅⟩ else if n = 1 then ⟨{2}, ∅⟩ else ⟨∅, ∅⟩)
    [0, 1] 0 1 (by simp) (by simp)
  exact ⟨h.1, (h.2.2.1 2).mpr ⟨1, by simp, by simp⟩⟩

theorem scanClauses_skip (a : Assign) (objId : Nat) :
    ∀ (pre items : List LhsItem) (i : Nat),
      (∀ it ∈ pre, matchesObj it objId = false) →
      scanClauses a (pre ++ items) i objId =
        scanClauses a items (i + pre.length) objId := by
  intro pre
  induction pre with
  | nil => intro items i _; simp
  | cons p ps ih =>
    intro items i h
    have hp : matchesObj p objId = false := h p (List.mem_cons_self p ps)
    have htail : ∀ it ∈ ps, matchesObj it objId = false :=
      fun it hit => h it (List.mem_cons_of_mem p hit)
    have harith : i + (p :: ps).length = i + 1 + ps.length := by
      simp [List.length_cons]
      omega
    rw [harith]
    cases p with
    | lhsIdent cid =>
      have hcid : ¬(cid = objId) := by simpa [matchesObj] using hp
      rw [List.cons_append]
      simp only [scanClauses, hcid, if_false]
      exact ih items (i + 1) htail
    | lhsSelector =>
      rw [List.cons_append]
      simp only [scanClauses]
      exact ih items (i + 1) htail
    | lhsOther =>
      rw [List.cons_append]
      simp only [scanClauses]
      exact ih items (i + 1) htail

theorem findAff_ident_step (body : List Assign) (id : Nat) (hasObj isLocal : Bool)
    (v : Finset Nat) (fuel : Nat) (h : id ∉ v) :
    findAffFuel body (fuel + 1) (.identE id hasObj isLocal) v =
      (match runActs (findAffFuel body fuel) (scanAssigns body id) (insert id v) with
       | .error m => .error m
       | .ok (affs, ds, v') =>
          .ok (affs, (if hasObj && !isLocal then [Diag.notLocalVar id] else []) ++ ds, v')) := by
  conv_lhs => rw [findAffFuel]
  simp [h]

theorem scanClauses_match_destructuring_nonlast (a : Assign) (objId i : Nat)
    (rest : List LhsItem) (hlt : a.rhs.length < a.lhs.length)
    (hi : i ≠ a.lhs.length - 1) :
    scanClauses a (.lhsIdent objId :: rest) i objId = [.emitNonLastDiag objId] := by
  simp only [scanClauses, if_pos rfl, if_pos hlt, if_pos hi, if_true, hi]

theorem scanClauses_match_destructuring_last (a : Assign) (objId i : Nat)
    (rest : List LhsItem) (c : Nat) (hlt : a.rhs.length < a.lhs.length)
    (hi : ¬(i ≠ a.lhs.length - 1)) (hhead : a.rhs.head? = some (.callE c)) :
    scanClauses a (.lhsIdent objId :: rest) i objId =
      .addCallAffector (.callE c) :: scanClauses a rest (i + 1) objId := by
  simp only [scanClauses, if_pos rfl, if_pos hlt, if_neg hi, hhead, if_true]

theorem findAffFuel_visited_ident (body : List Assign) (fuel : Nat) (id : Nat)
    (hasObj isLocal : Bool) (v : Finset Nat) (hid : id ∈ v) :
    findAffFuel body fuel (.identE id hasObj isLocal) v = .ok ([], [], v) := by
  rw [findAffFuel.eq_def]
  simp [hid]

/-- C7: when the taint engine meets an assignment destructuring a single
call (`len(lhs) > len(rhs)`) and the traced identifier occurs on the
left-hand side, then: if the identifier is not the last element, the
"unsupported ... non-last return" diagnostic is emitted and no affector is
produced from this assignment; if it is the last element, the right-hand
side call expression is added as an affector. -/
theorem destructuring_assignment_behavior :
    ∀ (lhsPre lhsSuf : List LhsItem) (rhs : List GExpr) (objId : Nat),
      (∀ it ∈ lhsPre, matchesObj it objId = false) →
      (lhsSuf ≠ [] →
        rhs.length < (lhsPre ++ .lhsIdent objId :: lhsSuf).length →
        scanAssign ⟨lhsPre ++ .lhsIdent objId :: lhsSuf, rhs⟩ objId =
          [.emitNonLastDiag objId] ∧
        findAffectorsInFunc [⟨lhsPre ++ .lhsIdent objId :: lhsSuf, rhs⟩]
          (.identE objId true true) ∅ =
          .ok ([], [Diag.nonLastDestructure objId], insert objId ∅)) ∧
      (∀ c, rhs = [.callE c] → lhsPre ≠ [] →
        scanAssign ⟨lhsPre ++ [.lhsIdent objId], rhs⟩ objId =
          [.addCallAffector (.callE c)] ∧
        findAffectorsInFunc [⟨lhsPre ++ [.lhsIdent objId], rhs⟩]
          (.identE objId true true) ∅ =
          .ok ([.callE c], [], insert objId ∅)) := by
  intro lhsPre lhsSuf rhs objId hpre
  constructor
  · intro hsuf hlen
    have hscan : scanAssign ⟨lhsPre ++ .lhsIdent objId :: lhsSuf, rhs⟩ objId =
        [.emitNonLastDiag objId] := by
      unfold scanAssign
      rw [scanClauses_skip _ _ lhsPre (.lhsIdent objId :: lhsSuf) 0 hpre]
      refine scanClauses_match_destructuring_nonlast _ _ _ _ hlen ?_
      simp only [List.length_append, List.length_cons]
      have : lhsSuf.length ≠ 0 := fun h => hsuf (List.eq_nil_of_length_eq_zero h)
      omega
    refine ⟨hscan, ?_⟩
    have hact : scanAssigns [⟨lhsPre ++ .lhsIdent objId :: lhsSuf, rhs⟩] objId =
        [.emitNonLastDiag objId] := by
      simp [scanAssigns, hscan]
    rw [findAffectorsInFunc, findAff_ident_step _ _ _ _ _ _ (Finset.not_mem_empty objId),
      hact]
    simp [runActs]
  · intro c hrhs hpre_ne
    subst hrhs
    have hscan : scanAssign ⟨lhsPre ++ [LhsItem.lhsIdent objId], [GExpr.callE c]⟩ objId =
        [.addCallAffector (.callE c)] := by
      unfold scanAssign
      rw [scanClauses_skip _ _ lhsPre [LhsItem.lhsIdent objId] 0 hpre]
      have hlt : ([GExpr.callE c]).length <
          (lhsPre ++ [LhsItem.lhsIdent objId]).length := by
        simp only [List.length_append, List.length_cons, List.length_nil]
        have : lhsPre.length ≠ 0 := fun h => hpre_ne (List.eq_nil_of_length_eq_zero h)
        omega
      have hi : ¬(0 + lhsPre.length ≠ (lhsPre ++ [LhsItem.lhsIdent objId]).length - 1) := by
        simp only [List.length_append, List.length_cons, List.length_nil, ne_eq,
          not_not]
        omega
      rw [scanClauses_match_destructuring_last
        ⟨lhsPre ++ [LhsItem.lhsIdent objId], [GExpr.callE c]⟩ objId
        (0 + lhsPre.length) [] c hlt hi rfl]
      simp [scanClauses]
    refine ⟨hscan, ?_⟩
    have hact : scanAssigns [⟨lhsPre ++ [LhsItem.lhsIdent objId], [GExpr.callE c]⟩] objId =
        [.addCallAffector (.callE c)] := by
      simp [scanAssigns, hscan]
    rw [findAffectorsInFunc, findAff_ident_step _ _ _ _ _ _ (Finset.not_mem_empty objId),
      hact]
    simp [runActs]

/-- C7 witness: both destructuring shapes at a concrete assignment. -/
theorem destructuring_assignment_behavior_witness :
    (scanAssign ⟨[.lhsOther, .lhsIdent 7, .lhsOther], [.callE 3]⟩ 7 =
      [.emitNonLastDiag 7] ∧
     findAffectorsInFunc [⟨[.lhsOther, .lhsIdent 7, .lhsOther], [.callE 3]⟩]
       (.identE 7 true true) ∅ =
       .ok ([], [Diag.nonLastDestructure 7], insert 7 ∅)) ∧
    (scanAssign ⟨[.lhsOther, .lhsIdent 7], [.callE 3]⟩ 7 =
      [.addCallAffector (.callE 3)] ∧
     findAffectorsInFunc [⟨[.lhsOther, .lhsIdent 7], [.callE 3]⟩]
       (.identE 7 true true) ∅ =
       .ok ([.callE 3], [], insert 7 ∅)) := by
  constructor
  · exact (destructuring_assignment_behavior [.lhsOther] [.lhsOther] [.callE 3] 7
      (by intro it hit; simp at hit; subst hit; rfl)).1
      (by simp) (by simp)
  · exact (destructuring_assignment_behavior [.lhsOther] [] [.callE 3] 7
      (by intro it hit; simp at hit; subst hit; rfl)).2
      3 rfl (by simp)

theorem visited_sub_of_eq {v v' : Finset Nat} (h : v = v') : v ⊆ v' :=
  h ▸ Finset.Subset.refl v

theorem runActs_visited_mono (step : GExpr → Finset Nat → AffResult)
    (hstep : ∀ e v affs ds v', step e v = .ok (affs, ds, v') → v ⊆ v') :
    ∀ (acts : List ScanAction) (v : Finset Nat) (affs : List GExpr)
      (ds : List Diag) (v' : Finset Nat),
      runActs step acts v = .ok (affs, ds, v') → v ⊆ v' := by
  intro acts
  induction acts with
  | nil =>
    intro v affs ds v' h
    simp only [runActs, Except.ok.injEq, Prod.mk.injEq] at h
    exact visited_sub_of_eq h.2.2
  | cons act rest ih =>
    intro v affs ds v' h
    cases act with
    | emitNonLastDiag cid =>
      simp only [runActs] at h
      cases hrest : runActs step rest v with
      | error m => rw [hrest] at h; exact absurd h (by simp)
      | ok t =>
        obtain ⟨a0, d0, v0⟩ := t
        rw [hrest] at h
        simp only [Except.ok.injEq, Prod.mk.injEq] at h
        exact (ih v a0 d0 v0 hrest).trans (visited_sub_of_eq h.2.2)
    | addCallAffector e0 =>
      simp only [runActs] at h
      cases hrest : runActs step rest v with
      | error m => rw [hrest] at h; exact absurd h (by simp)
      | ok t =>
        obtain ⟨a0, d0, v0⟩ := t
        rw [hrest] at h
        simp only [Except.ok.injEq, Prod.mk.injEq] at h
        exact (ih v a0 d0 v0 hrest).trans (visited_sub_of_eq h.2.2)
    | panicAct m =>
      simp only [runActs] at h
      exact absurd h (by simp)
    | recurseInto e0 =>
      simp only [runActs] at h
      cases hs : step e0 v with
      | error m => rw [hs] at h; exact absurd h (by simp)
      | ok t =>
        obtain ⟨a1, d1, v1⟩ := t
        rw [hs] at h
        dsimp only at h
        cases hrest : runActs step rest v1 with
        | error m => rw [hrest] at h; exact absurd h (by simp)
        | ok t2 =>
          obtain ⟨a2, d2, v2⟩ := t2
          rw [hrest] at h
          simp only [Except.ok.injEq, Prod.mk.injEq] at h
          exact ((hstep e0 v a1 d1 v1 hs).trans (ih v1 a2 d2 v2 hrest)).trans
            (visited_sub_of_eq h.2.2)

theorem findAffFuel_visited_mono (body : List Assign) :
    ∀ (fuel : Nat) (e : GExpr) (v : Finset Nat) (affs : List GExpr)
      (ds : List Diag) (v' : Finset Nat),
      findAffFuel body fuel e v = .ok (affs, ds, v') → v ⊆ v' := by
  intro fuel
  induction fuel with
  | zero =>
    intro e v affs ds v' h
    cases e with
    | callE c =>
      simp only [findAffFuel, Except.ok.injEq, Prod.mk.injEq] at h
      exact visited_sub_of_eq h.2.2
    | identE id hasObj isLocal =>
      by_cases hid : id ∈ v
      · simp only [findAffFuel, hid, if_true, Except.ok.injEq, Prod.mk.injEq] at h
        exact visited_sub_of_eq h.2.2
      · simp [findAffFuel, hid] at h
    | unaryE pos isAnd implErr =>
      by_cases hb : (isAnd && implErr) = true
      · simp only [findAffFuel, hb, if_true, Except.ok.injEq, Prod.mk.injEq] at h
        exact visited_sub_of_eq h.2.2
      · simp only [findAffFuel, hb, if_false, Bool.false_eq_true, Except.ok.injEq,
          Prod.mk.injEq] at h
        exact visited_sub_of_eq h.2.2
    | compositeLitE c =>
      simp only [findAffFuel, Except.ok.injEq, Prod.mk.injEq] at h
      exact visited_sub_of_eq h.2.2
    | basicLitE c =>
      simp only [findAffFuel, Except.ok.injEq, Prod.mk.injEq] at h
      exact visited_sub_of_eq h.2.2
    | otherE o =>
      simp only [findAffFuel, Except.ok.injEq, Prod.mk.injEq] at h
      exact visited_sub_of_eq h.2.2
  | succ f ih =>
    intro e v affs ds v' h
    cases e with
    | callE c =>
      simp only [findAffFuel, Except.ok.injEq, Prod.mk.injEq] at h
      exact visited_sub_of_eq h.2.2
    | identE id hasObj isLocal =>
      by_cases hid : id ∈ v
      · simp only [findAffFuel, hid, if_true, Except.ok.injEq, Prod.mk.injEq] at h
        exact visited_sub_of_eq h.2.2
      · rw [findAff_ident_step body id hasObj isLocal v f hid] at h
        cases hrun : runActs (findAffFuel body f) (scanAssigns body id) (insert id v) with
        | error m => rw [hrun] at h; exact absurd h (by simp)
        | ok t =>
          obtain ⟨a0, d0, v0⟩ := t
          rw [hrun] at h
          simp only [Except.ok.injEq, Prod.mk.injEq] at h
          have hsub : insert id v ⊆ v0 :=
            runActs_visited_mono (findAffFuel body f)
              (fun e0 w a1 d1 w' h1 => ih e0 w a1 d1 w' h1) _ _ a0 d0 v0 hrun
          exact fun x hx =>
            visited_sub_of_eq h.2.2 (hsub (Finset.mem_insert_of_mem hx))
    | unaryE pos isAnd implErr =>
      by_cases hb : (isAnd && implErr) = true
      · simp only [findAffFuel, hb, if_true, Except.ok.injEq, Prod.mk.injEq] at h
        exact visited_sub_of_eq h.2.2
      · simp only [findAffFuel, hb, if_false, Bool.false_eq_true, Except.ok.injEq,
          Prod.mk.injEq] at h
        exact visited_sub_of_eq h.2.2
    | compositeLitE c =>
      simp only [findAffFuel, Except.ok.injEq, Prod.mk.injEq] at h
      exact visited_sub_of_eq h.2.2
    | basicLitE c =>
      simp only [findAffFuel, Except.ok.injEq, Prod.mk.injEq] at h
      exact visited_sub_of_eq h.2.2
    | otherE o =>
      simp only [findAffFuel, Except.ok.injEq, Prod.mk.injEq] at h
      exact visited_sub_of_eq h.2.2

theorem runActs_congr (step₁ step₂ : GExpr → Finset Nat → AffResult)
    (hmono : ∀ e v affs ds v', step₁ e v = .ok (affs, ds, v') → v ⊆ v') :
    ∀ (acts : List ScanAction) (v : Finset Nat),
      (∀ e w, ScanAction.recurseInto e ∈ acts → v ⊆ w → step₁ e w = step₂ e w) →
      runActs step₁ acts v = runActs step₂ acts v := by
  intro acts
  induction acts with
  | nil => intro v _; rfl
  | cons act rest ih =>
    intro v hag
    have hagrest : ∀ e w, ScanAction.recurseInto e ∈ rest → v ⊆ w →
        step₁ e w = step₂ e w :=
      fun e w hm hw => hag e w (List.mem_cons_of_mem act hm) hw
    cases act with
    | emitNonLastDiag cid =>
      simp only [runActs]
      rw [ih v hagrest]
    | addCallAffector e0 =>
      simp only [runActs]
      rw [ih v hagrest]
    | panicAct m => simp only [runActs]
    | recurseInto e0 =>
      have hstep : step₁ e0 v = step₂ e0 v :=
        hag e0 v (List.mem_cons_self _ _) (Finset.Subset.refl v)
      simp only [runActs]
      rw [← hstep]
      cases hs : step₁ e0 v with
      | error m => rfl
      | ok t =>
        obtain ⟨a1, d1, v1⟩ := t
        have hv1 : v ⊆ v1 := hmono e0 v a1 d1 v1 hs
        dsimp only
        rw [ih v1 (fun e w hm hw =>
          hag e w (List.mem_cons_of_mem _ hm) (hv1.trans hw))]

theorem mem_foldr_exprIdents (e : GExpr) :
    ∀ (l : List GExpr), e ∈ l →
      exprIdents e ⊆ l.foldr (fun x s => exprIdents x ∪ s) ∅ := by
  intro l
  induction l with
  | nil => intro h; exact absurd h (List.not_mem_nil e)
  | cons x xs ih =>
    intro h
    rcases List.mem_cons.mp h with rfl | h2
    · simp only [List.foldr_cons]
      exact Finset.subset_union_left
    · simp only [List.foldr_cons]
      exact (ih h2).trans Finset.subset_union_right

theorem scanClauses_recurse_mem (a : Assign) (objId : Nat) :
    ∀ (items : List LhsItem) (i : Nat) (e : GExpr),
      ScanAction.recurseInto e ∈ scanClauses a items i objId → e ∈ a.rhs := by
  intro items
  induction items with
  | nil => intro i e h; simp [scanClauses] at h
  | cons item rest ih =>
    intro i e h
    cases item with
    | lhsIdent cid =>
      by_cases hc : cid = objId
      · subst hc
        by_cases hlen : a.rhs.length < a.lhs.length
        · by_cases hi : i ≠ a.lhs.length - 1
          · rw [scanClauses_match_destructuring_nonlast a cid i rest hlen hi] at h
            simp at h
          · rcases hh : a.rhs.head? with _ | e0
            · simp [scanClauses, hlen, hi, hh] at h
            · cases e0 with
              | callE c =>
                rw [scanClauses_match_destructuring_last a cid i rest c hlen hi hh] at h
                rcases List.mem_cons.mp h with heq | h2
                · exact absurd heq (by simp)
                · exact ih (i + 1) e h2
              | identE id ho il => simp [scanClauses, hlen, hi, hh] at h
              | unaryE p ia ie => simp [scanClauses, hlen, hi, hh] at h
              | compositeLitE c => simp [scanClauses, hlen, hi, hh] at h
              | basicLitE c => simp [scanClauses, hlen, hi, hh] at h
              | otherE o => simp [scanClauses, hlen, hi, hh] at h
        · rcases hg : a.rhs[i]? with _ | e0
          · simp [scanClauses, hlen, hg] at h
          · have hmem : e0 ∈ a.rhs := List.getElem?_mem hg
            simp only [scanClauses, if_pos rfl, hlen, if_false, hg] at h
            rcases List.mem_cons.mp h with heq | h2
            · obtain rfl : e = e0 := by
                simpa using heq
              exact hmem
            · exact ih (i + 1) e h2
      · simp only [scanClauses, if_neg hc] at h
        exact ih (i + 1) e h
    | lhsSelector =>
      simp only [scanClauses] at h
      exact ih (i + 1) e h
    | lhsOther =>
      simp only [scanClauses] at h
      exact ih (i + 1) e h

theorem scanAssigns_recurse_mem (body : List Assign) (objId : Nat) (e : GExpr)
    (h : ScanAction.recurseInto e ∈ scanAssigns body objId) :
    ∃ a ∈ body, e ∈ a.rhs := by
  simp only [scanAssigns, List.mem_flatten, List.mem_map] at h
  obtain ⟨l, ⟨a, ha, rfl⟩, hmem⟩ := h
  simp only [scanAssign] at hmem
  exact ⟨a, ha, scanClauses_recurse_mem a objId a.lhs 0 e hmem⟩

theorem rhs_idents_subset (a : Assign) (e : GExpr) (h : e ∈ a.rhs) :
    exprIdents e ⊆ assignIdents a :=
  (mem_foldr_exprIdents e a.rhs h).trans Finset.subset_union_right

theorem assignIdents_subset_body :
    ∀ (body : List Assign) (a : Assign), a ∈ body →
      assignIdents a ⊆ bodyIdents body := by
  intro body
  induction body with
  | nil => intro a h; exact absurd h (List.not_mem_nil a)
  | cons b bs ih =>
    intro a h
    rcases List.mem_cons.mp h with rfl | h2
    · simp only [bodyIdents, List.foldr_cons]
      exact Finset.subset_union_left
    · simp only [bodyIdents, List.foldr_cons]
      exact ((ih a h2).trans Finset.subset_union_right)

theorem scan_recurse_idents_subset (body : List Assign) (objId : Nat) (e : GExpr)
    (h : ScanAction.recurseInto e ∈ scanAssigns body objId) :
    exprIdents e ⊆ bodyIdents body := by
  obtain ⟨a, ha, he⟩ := scanAssigns_recurse_mem body objId e h
  exact (rhs_idents_subset a e he).trans (assignIdents_subset_body body a ha)

theorem affMeasure_decrease (body : List Assign) (id : Nat) (hasObj isLocal : Bool)
    (v w : Finset Nat) (e' : GExpr) (hid : id ∉ v) (hsub : insert id v ⊆ w)
    (hidents : exprIdents e' ⊆ bodyIdents body) :
    affMeasure body e' w < affMeasure body (.identE id hasObj isLocal) v := by
  unfold affMeasure
  have h1 : bodyIdents body ∪ exprIdents e' = bodyIdents body :=
    Finset.union_eq_left.mpr hidents
  rw [h1]
  have h2 : exprIdents (GExpr.identE id hasObj isLocal) = {id} := rfl
  rw [h2]
  apply Finset.card_lt_card
  rw [Finset.ssubset_def]
  constructor
  · intro x hx
    simp only [Finset.mem_sdiff] at hx ⊢
    exact ⟨Finset.mem_union_left _ hx.1,
      fun hxv => hx.2 (hsub (Finset.mem_insert_of_mem hxv))⟩
  · intro hcontra
    have hidmem : id ∈ (bodyIdents body ∪ {id}) \ v := by
      simp [Finset.mem_sdiff, hid]
    have hmem := hcontra hidmem
    simp only [Finset.mem_sdiff] at hmem
    exact hmem.2 (hsub (Finset.mem_insert_self id v))

theorem findAffFuel_stable (body : List Assign) :
    ∀ (fuel : Nat) (e : GExpr) (v : Finset Nat) (fuel₂ : Nat),
      affMeasure body e v < fuel → affMeasure body e v < fuel₂ →
      findAffFuel body fuel e v = findAffFuel body fuel₂ e v := by
  intro fuel
  induction fuel with
  | zero => intro e v fuel₂ h _; exact absurd h (Nat.not_lt_zero _)
  | succ f ih =>
    intro e v fuel₂ h h₂
    cases e with
    | callE c => simp [findAffFuel]
    | identE id hasObj isLocal =>
      by_cases hid : id ∈ v
      · rw [findAffFuel_visited_ident body (f + 1) id hasObj isLocal v hid,
          findAffFuel_visited_ident body fuel₂ id hasObj isLocal v hid]
      · have hpos : 0 < affMeasure body (.identE id hasObj isLocal) v := by
          apply Finset.card_pos.mpr
          refine ⟨id, ?_⟩
          simp [affMeasure, exprIdents, hid]
        obtain ⟨f₂, rfl⟩ : ∃ f₂, fuel₂ = f₂ + 1 := ⟨fuel₂ - 1, by omega⟩
        rw [findAff_ident_step body id hasObj isLocal v f hid,
          findAff_ident_step body id hasObj isLocal v f₂ hid]
        have hcong : runActs (findAffFuel body f) (scanAssigns body id) (insert id v) =
            runActs (findAffFuel body f₂) (scanAssigns body id) (insert id v) := by
          apply runActs_congr (findAffFuel body f) (findAffFuel body f₂)
            (fun e0 w a1 d1 w' h1 => findAffFuel_visited_mono body f e0 w a1 d1 w' h1)
          intro e0 w hmem hw
          have hidents := scan_recurse_idents_subset body id e0 hmem
          have hlt := affMeasure_decrease body id hasObj isLocal v w e0 hid hw hidents
          exact ih e0 w f₂ (by omega) (by omega)
        rw [hcong]
    | unaryE pos isAnd implErr => simp [findAffFuel]
    | compositeLitE c => simp [findAffFuel]
    | basicLitE c => simp [findAffFuel]
    | otherE o => simp [findAffFuel]

/-- C8: the backward taint engine terminates on every input: an
already-visited identifier yields nothing (the cycle break), and the
engine's canonical fuel (`affMeasure`, the number of relevant unvisited
identifiers, plus one) is always sufficient — running with any larger fuel
returns the same result as `findAffectorsInFunc`, so the identifier
recursion (including through cyclic self-assignments such as
`err = modify(err)`) bottoms out. -/
theorem taint_engine_terminates :
    (∀ (body : List Assign) (id : Nat) (hasObj isLocal : Bool) (v : Finset Nat),
      id ∈ v →
      findAffectorsInFunc body (.identE id hasObj isLocal) v = .ok ([], [], v)) ∧
    (∀ (body : List Assign) (e : GExpr) (v : Finset Nat) (fuel : Nat),
      affMeasure body e v < fuel →
      findAffFuel body fuel e v = findAffectorsInFunc body e v) := by
  constructor
  · intro body id hasObj isLocal v hid
    simp [findAffectorsInFunc, findAffFuel, hid]
  · intro body e v fuel h
    exact findAffFuel_stable body fuel e v (affMeasure body e v + 1) h
      (Nat.lt_succ_self _)

/-- C8 witness: the cyclic self-assignment `err = err` (object id 0): the
engine detects the visited identifier and returns, and fuel 5 agrees with
the canonical fuel on the same body. -/
theorem taint_engine_terminates_witness :
    findAffectorsInFunc [⟨[.lhsIdent 0], [.identE 0 true true]⟩]
      (.identE 0 true true) {0} = .ok ([], [], {0}) ∧
    findAffFuel [⟨[.lhsIdent 0], [.identE 0 true true]⟩] 5
      (.identE 0 true true) ∅ =
      findAffectorsInFunc [⟨[.lhsIdent 0], [.identE 0 true true]⟩]
        (.identE 0 true true) ∅ := by
  constructor
  · exact taint_engine_terminates.1 [⟨[.lhsIdent 0], [.identE 0 true true]⟩]
      0 true true {0} (Finset.mem_singleton_self 0)
  · exact taint_engine_terminates.2 [⟨[.lhsIdent 0], [.identE 0 true true]⟩]
      (.identE 0 true true) ∅ 5 (by decide)

end SerumAnalyzer
